import Mathlib

/-!
Verification of the sisua data-acquisition pipeline and multi-omic container.

The development shallowly embeds the Python sources of the repository:

* `src/sisua/data/data_loader/pbmc_CITEseq.py` (`read_CITEseq_PBMC`, the
  current loader) and `src/sisua/data/pbmc_CITEseq.py` (the legacy loader);
* `src/sisua/models/latents.py` (`get_latent`);
* operations of the multi-omic container (`split`, `corrupt`, `normalize`)
  whose implementation is not part of the sources and is therefore modelled
  from the specification, as marked in the corresponding doc comments.

Python text is modelled as `List Char`; the helper functions below follow the
semantics of the Python string methods used by the sources (`str.strip`,
`str.split`, `str.replace`, `str.lower`, substring containment).
-/

namespace Sisua

/-- Python whitespace characters recognised by `str.strip()` (ASCII range). -/
def isPySpace (c : Char) : Bool :=
  c = ' ' || c = '\t' || c = '\n' || c = '\r' || c = '\x0b' || c = '\x0c'

/-- Python `s.strip()`: drop whitespace from both ends. -/
def pyStrip (s : List Char) : List Char :=
  ((s.dropWhile isPySpace).reverse.dropWhile isPySpace).reverse

/-- Python `s.split(sep)` for a one-character separator: split at every
occurrence, keeping empty pieces. -/
def pySplit (sep : Char) : List Char → List (List Char)
  | [] => [[]]
  | c :: rest =>
    if c = sep then [] :: pySplit sep rest
    else
      match pySplit sep rest with
      | [] => [[c]]
      | f :: r => (c :: f) :: r

/-- Python `s.startswith(pat)`. -/
def startsWith : List Char → List Char → Bool
  | [], _ => true
  | _ :: _, [] => false
  | p :: ps, c :: cs => p = c && startsWith ps cs

/-- Python `pat in s` (substring containment). -/
def hasSub (pat : List Char) : List Char → Bool
  | [] => pat.isEmpty
  | c :: rest => startsWith pat (c :: rest) || hasSub pat rest

/-- Fuel-driven worker for `removeOcc`; the fuel dominates the length of the
remaining input, so `removeOcc` below always supplies enough fuel. -/
def removeOccF (p : Char) (ps : List Char) : Nat → List Char → List Char
  | 0, _ => []
  | _ + 1, [] => []
  | fuel + 1, c :: rest =>
    if startsWith (p :: ps) (c :: rest) then removeOccF p ps fuel (rest.drop ps.length)
    else c :: removeOccF p ps fuel rest

/-- Python `s.replace(pat, "")` for the non-empty pattern `p :: ps`:
left-to-right removal of non-overlapping occurrences. -/
def removeOcc (p : Char) (ps : List Char) (s : List Char) : List Char :=
  removeOccF p ps s.length s

/-- Python `s.lower()` (ASCII). -/
def pyLower (s : List Char) : List Char := s.map Char.toLower

end Sisua

namespace Sisua

/-!
Embedding of `read_CITEseq_PBMC` from
`src/sisua/data/data_loader/pbmc_CITEseq.py` (lines 60-128): the
extract-and-align build that runs when no preprocessed data is found.

External collaborators are abstracted at their call boundary:
`decrypt_aes(path, password=_PASSWORD)` followed by `md5_checksum(...)` is
modelled by the field `plaintextMD5` of a fetched archive, and the zip listing
by the `members` field.  Numeric conversion (`astype`) and the external
`remove_allzeros_columns` (from `sisua.data.utils`, not among the sources) act
only on the value block and are kept out of the label-level model.
-/

/-- The fixed symmetric decryption secret (`_PASSWORD` in both loader files). -/
def pbmcPassword : List Char := "uef-czi".toList

/-- One member file of a decrypted zip archive: its name inside the archive and
its utf-8 decoded text. -/
structure Member where
  name : List Char
  data : List Char
deriving DecidableEq, Repr

/-- One downloaded archive, seen after decryption: `name` is the base file name
(the key of `download_files`), `expectedMD5` the pinned checksum from the
descriptor, `plaintextMD5` the checksum computed over the decrypted bytes, and
`members` the files inside the zip. -/
structure FetchedArchive where
  name : List Char
  expectedMD5 : List Char
  plaintextMD5 : List Char
  members : List Member
deriving DecidableEq, Repr

/-- Failures of the build, named after the error taxonomy of the spec; in the
Python source each is an `assert` with the quoted message. -/
inductive PipelineError where
  | integrityError (fileName : List Char)
  | inconsistentSampleCount
  | sampleAlignment
deriving DecidableEq, Repr

/-- State of the extraction loop: the set `n` of per-line field counts, and the
accumulated gene (`X`) and protein (`y`) rows of parsed fields. -/
structure ExtractState where
  n : Finset Nat
  X : List (List (List Char))
  y : List (List (List Char))
deriving DecidableEq

/-- Python `line.strip().split(",")`. -/
def parseLine (line : List Char) : List (List Char) := pySplit ',' (pyStrip line)

/-- Body of the innermost loop (lines 84-92 of the loader): skip empty lines,
record the field count, and route the parsed fields to `y` if the member name
contains `"Protein"`, to `X` otherwise. -/
def processLine (isProt : Bool) (st : ExtractState) (line : List Char) : ExtractState :=
  if line.length = 0 then st
  else
    let fields := parseLine line
    { n := insert fields.length st.n,
      X := if isProt then st.X else st.X ++ [fields],
      y := if isProt then st.y ++ [fields] else st.y }

/-- Python `"Protein" in name` for an archive member. -/
def isProteinMember (m : Member) : Bool := hasSub "Protein".toList m.name

/-- Process all lines of one archive member (`data.split("\n")`). -/
def processMember (st : ExtractState) (m : Member) : ExtractState :=
  (pySplit '\n' m.data).foldl (processLine (isProteinMember m)) st

/-- Process all members of one decrypted archive. -/
def processArchive (st : ExtractState) (a : FetchedArchive) : ExtractState :=
  a.members.foldl processMember st

/-- The extraction loop over the downloaded archives (lines 74-92): each
archive is admitted only if the checksum of its decrypted bytes matches the
pinned value (`assert md5_ == md5`), otherwise the build stops with an
integrity failure naming the file. -/
def extractAll : List FetchedArchive → ExtractState → Except PipelineError ExtractState
  | [], st => .ok st
  | a :: rest, st =>
    if a.plaintextMD5 = a.expectedMD5 then extractAll rest (processArchive st a)
    else .error (.integrityError a.name)

/-- The species marker recognised by the gene filter. -/
def humanMarker : List Char := "HUMAN_".toList

/-- Python `i.replace("HUMAN_", "")`. -/
def stripHuman (l : List Char) : List Char := removeOcc 'H' "UMAN_".toList l

/-- Column-label part of the species filter of the current loader (lines
102-106 of `src/sisua/data/data_loader/pbmc_CITEseq.py`): keep the labels that
contain the marker, then delete the marker occurrences from the survivors. -/
def humanFilterStrip (cols : List (List Char)) : List (List Char) :=
  (cols.filter (fun l => hasSub humanMarker l)).map stripHuman

/-- Column-label part of the species filter of the legacy loader (line 106 of
`src/sisua/data/pbmc_CITEseq.py`): keep the labels that contain the marker,
unchanged. -/
def humanFilterLegacy (cols : List (List Char)) : List (List Char) :=
  cols.filter (fun l => hasSub humanMarker l)

/-- Boolean-mask selection of numpy, `row[mask]`. -/
def maskFilter {α : Type} (mask : List Bool) (row : List α) : List α :=
  (List.zip row mask).filterMap (fun p => if p.2 then some p.1 else none)

/-- Result of a successful build: the aligned labels and the (still textual)
value blocks. -/
structure SCOutput where
  cellIds : List (List Char)
  geneIds : List (List Char)
  protIds : List (List Char)
  Xvals : List (List (List Char))
  yvals : List (List (List Char))
deriving DecidableEq

/-- Post-processing of the extraction state (lines 94-118 of the current
loader): the single-field-count guard (`assert len(n) == 1`), the transposes,
the label extraction (`X_row, X_col = X[1:, 0], X[0, 1:]`), the species filter
on the gene columns, and the final row-identity guard
(`assert np.all(X_row == y_row)`). -/
def postProcess (st : ExtractState) : Except PipelineError SCOutput :=
  if st.n.card ≠ 1 then .error .inconsistentSampleCount
  else
    let Xt := st.X.transpose
    let xRow := (Xt.drop 1).map (fun r => r.headD [])
    let xCol := (Xt.headD []).drop 1
    let keep := xCol.map (fun l => hasSub humanMarker l)
    let xVals := (Xt.drop 1).map (fun r => maskFilter keep (r.drop 1))
    let xCol2 := humanFilterStrip xCol
    let Yt := st.y.transpose
    let yRow := (Yt.drop 1).map (fun r => r.headD [])
    let yCol := (Yt.headD []).drop 1
    let yVals := (Yt.drop 1).map (fun r => r.drop 1)
    if xRow = yRow then
      .ok { cellIds := xRow, geneIds := xCol2, protIds := yCol,
            Xvals := xVals, yvals := yVals }
    else .error .sampleAlignment

/-- Initial extraction state. -/
def initState : ExtractState := { n := ∅, X := [], y := [] }

/-- The build path of `read_CITEseq_PBMC` of the current loader, from decrypted
archives to the aligned output. -/
def read_CITEseq_PBMC (archives : List FetchedArchive) : Except PipelineError SCOutput :=
  match extractAll archives initState with
  | .error e => .error e
  | .ok st => postProcess st

/-!  Direct descriptions of what the extraction loop accumulates, used to state
the theorems; the lemmas below prove that the loop computes them. -/

/-- The parsed fields of every non-empty line of a list of raw lines. -/
def linesParsed (lines : List (List Char)) : List (List (List Char)) :=
  (lines.filter (fun l => l.length ≠ 0)).map parseLine

/-- The parsed fields of every non-empty line of a member. -/
def parsedLines (data : List Char) : List (List (List Char)) :=
  linesParsed (pySplit '\n' data)

/-- The per-line field counts of one member. -/
def memberCounts (m : Member) : List Nat := (parsedLines m.data).map List.length

/-- All per-line field counts over all members of all archives, in traversal
order. -/
def fieldCounts (archives : List FetchedArchive) : List Nat :=
  (archives.flatMap (fun a => a.members)).flatMap memberCounts

/-- The parsed gene-table rows: lines of the members whose name does not
contain `"Protein"`. -/
def geneLines (archives : List FetchedArchive) : List (List (List Char)) :=
  (archives.flatMap (fun a => a.members)).flatMap
    (fun m => if isProteinMember m then [] else parsedLines m.data)

/-- The parsed protein-table rows: lines of the members whose name contains
`"Protein"`. -/
def protLines (archives : List FetchedArchive) : List (List (List Char)) :=
  (archives.flatMap (fun a => a.members)).flatMap
    (fun m => if isProteinMember m then parsedLines m.data else [])

/-- The row-label sequence a parsed block yields after transposition:
`X[1:, 0]` of the transposed matrix, i.e. the sample identities. -/
def rowLabels (lines : List (List (List Char))) : List (List Char) :=
  (lines.transpose.drop 1).map (fun r => r.headD [])

end Sisua

deriving instance DecidableEq for Except

namespace Sisua

/-! Characterisation of the extraction loop in terms of the direct
descriptions. -/

lemma foldl_processLine (p : Bool) (lines : List (List Char)) (st : ExtractState) :
    lines.foldl (processLine p) st =
      { n := st.n ∪ ((linesParsed lines).map List.length).toFinset,
        X := st.X ++ (if p then [] else linesParsed lines),
        y := st.y ++ (if p then linesParsed lines else []) } := by
  induction lines generalizing st with
  | nil => simp [linesParsed]
  | cons l ls ih =>
    have hcons : ∀ hl : ¬ l.length = 0,
        linesParsed (l :: ls) = parseLine l :: linesParsed ls := by
      intro hl
      have hne : l ≠ [] := by simpa [List.length_eq_zero] using hl
      simp [linesParsed, List.filter_cons, hne]
    by_cases hl : l.length = 0
    · have hskip : processLine p st l = st := by simp [processLine, hl]
      have hnil : l = [] := by simpa [List.length_eq_zero] using hl
      have hcons0 : linesParsed (l :: ls) = linesParsed ls := by
        simp [linesParsed, List.filter_cons, hnil]
      rw [List.foldl_cons, hskip, ih, hcons0]
    · have hstep : processLine p st l =
          { n := insert (parseLine l).length st.n,
            X := if p then st.X else st.X ++ [parseLine l],
            y := if p then st.y ++ [parseLine l] else st.y } := by
        simp [processLine, hl]
      rw [List.foldl_cons, hstep, ih, hcons hl]
      cases p <;>
        simp [Finset.insert_union, Finset.union_insert, List.append_assoc]

lemma processMember_eq (st : ExtractState) (m : Member) :
    processMember st m =
      { n := st.n ∪ (memberCounts m).toFinset,
        X := st.X ++ (if isProteinMember m then [] else parsedLines m.data),
        y := st.y ++ (if isProteinMember m then parsedLines m.data else []) } := by
  simp [processMember, foldl_processLine, memberCounts, parsedLines]

lemma foldl_processMember (ms : List Member) (st : ExtractState) :
    ms.foldl processMember st =
      { n := st.n ∪ (ms.flatMap memberCounts).toFinset,
        X := st.X ++ ms.flatMap (fun m => if isProteinMember m then [] else parsedLines m.data),
        y := st.y ++ ms.flatMap (fun m => if isProteinMember m then parsedLines m.data else []) } := by
  induction ms generalizing st with
  | nil => simp
  | cons m ms ih =>
    simp [List.foldl_cons, processMember_eq, ih, List.toFinset_append,
      Finset.union_assoc, List.append_assoc]

lemma processArchive_eq (st : ExtractState) (a : FetchedArchive) :
    processArchive st a =
      { n := st.n ∪ (a.members.flatMap memberCounts).toFinset,
        X := st.X ++ a.members.flatMap
          (fun m => if isProteinMember m then [] else parsedLines m.data),
        y := st.y ++ a.members.flatMap
          (fun m => if isProteinMember m then parsedLines m.data else []) } := by
  simp [processArchive, foldl_processMember]

lemma extractAll_ok (archives : List FetchedArchive)
    (h : ∀ a ∈ archives, a.plaintextMD5 = a.expectedMD5) (st : ExtractState) :
    extractAll archives st =
      .ok { n := st.n ∪ (fieldCounts archives).toFinset,
            X := st.X ++ geneLines archives,
            y := st.y ++ protLines archives } := by
  induction archives generalizing st with
  | nil => simp [extractAll, fieldCounts, geneLines, protLines]
  | cons a rest ih =>
    have ha : a.plaintextMD5 = a.expectedMD5 := h a (by simp)
    have hrest : ∀ b ∈ rest, b.plaintextMD5 = b.expectedMD5 := fun b hb => h b (by simp [hb])
    simp only [extractAll, ha, if_pos rfl, processArchive_eq, ih hrest]
    simp [fieldCounts, geneLines, protLines, List.flatMap_append,
      List.toFinset_append, Finset.union_assoc, List.append_assoc]

lemma extractAll_err (pre : List FetchedArchive) (a : FetchedArchive)
    (post : List FetchedArchive)
    (hpre : ∀ b ∈ pre, b.plaintextMD5 = b.expectedMD5)
    (ha : a.plaintextMD5 ≠ a.expectedMD5) (st : ExtractState) :
    extractAll (pre ++ a :: post) st = .error (.integrityError a.name) := by
  induction pre generalizing st with
  | nil => simp [extractAll, ha]
  | cons b bs ih =>
    have hb : b.plaintextMD5 = b.expectedMD5 := hpre b (by simp)
    have hbs : ∀ c ∈ bs, c.plaintextMD5 = c.expectedMD5 := fun c hc => hpre c (by simp [hc])
    simp [extractAll, hb, ih hbs]

lemma read_eq_postProcess (archives : List FetchedArchive)
    (h : ∀ a ∈ archives, a.plaintextMD5 = a.expectedMD5) :
    read_CITEseq_PBMC archives =
      postProcess { n := (fieldCounts archives).toFinset,
                    X := geneLines archives, y := protLines archives } := by
  have h1 := extractAll_ok archives h { n := ∅, X := [], y := [] }
  simp [read_CITEseq_PBMC, initState, h1]

/-! Concrete archives used by the witnesses: a gene table over cells
`c1, c2, c3` and a protein table over the same cells, once in the same order
and once reordered, plus variants with a wrong field count or checksum. -/

/-- A fetched gene-count archive whose decrypted checksum matches. -/
def demoGeneArchive : FetchedArchive :=
  { name := "GSE100866_PBMC.rawCountData.csv.zip".toList,
    expectedMD5 := "md5gene".toList, plaintextMD5 := "md5gene".toList,
    members := [{ name := "GSE100866_PBMC.rawCountData.csv".toList,
                  data := "g,c1,c2,c3\nHUMAN_G1,1,2,3".toList }] }

/-- A protein-count archive listing the cells in the order `c1, c3, c2`. -/
def demoProtSwapArchive : FetchedArchive :=
  { name := "GSE100866_PBMC.rawCountProtein.csv.zip".toList,
    expectedMD5 := "md5prot".toList, plaintextMD5 := "md5prot".toList,
    members := [{ name := "GSE100866_PBMC.rawCountProtein.csv".toList,
                  data := "p,c1,c3,c2\nP1,4,5,6".toList }] }

/-- A protein-count archive with only three fields per line. -/
def demoProtShortArchive : FetchedArchive :=
  { name := "GSE100866_PBMC.rawCountProtein.csv.zip".toList,
    expectedMD5 := "md5prot".toList, plaintextMD5 := "md5prot".toList,
    members := [{ name := "GSE100866_PBMC.rawCountProtein.csv".toList,
                  data := "p,c1,c2\nP1,4,5".toList }] }

/-- An archive whose decrypted checksum differs from the pinned one. -/
def demoBadMD5Archive : FetchedArchive :=
  { name := "GSE100866_PBMC.rawCountData.csv.zip".toList,
    expectedMD5 := "md5gene".toList, plaintextMD5 := "tampered".toList,
    members := [{ name := "GSE100866_PBMC.rawCountData.csv".toList,
                  data := "g,c1,c2,c3\nHUMAN_G1,1,2,3".toList }] }

/-- C2: once every archive passes its checksum, the build collects the field
count of every non-empty line of every member into the one set `n` and stops
with `InconsistentSampleCountError` (the `assert len(n) == 1` of line 94)
whenever more than one distinct count was observed, before any transposition,
labelling or row comparison; when exactly one distinct count was observed it
proceeds past this guard. -/
theorem inconsistent_count_guard (archives : List FetchedArchive)
    (hmd5 : ∀ a ∈ archives, a.plaintextMD5 = a.expectedMD5) :
    (1 < (fieldCounts archives).dedup.length →
      read_CITEseq_PBMC archives = .error .inconsistentSampleCount)
    ∧ ((fieldCounts archives).dedup.length = 1 →
      read_CITEseq_PBMC archives ≠ .error .inconsistentSampleCount) := by
  have hr := read_eq_postProcess archives hmd5
  constructor
  · intro hgt
    have hcard : (fieldCounts archives).toFinset.card ≠ 1 := by
      rw [List.card_toFinset]; omega
    rw [hr]; simp [postProcess, hcard]
  · intro heq
    have hcard : ¬ (fieldCounts archives).toFinset.card ≠ 1 := by
      rw [List.card_toFinset]; omega
    rw [hr]
    simp only [postProcess, if_neg hcard]
    split <;> simp

/-- Witness for `inconsistent_count_guard`: a gene table with four fields per
line and a protein table with three triggers the guard. -/
theorem inconsistent_count_guard_witness :
    (∀ a ∈ [demoGeneArchive, demoProtShortArchive],
      a.plaintextMD5 = a.expectedMD5)
    ∧ 1 < (fieldCounts [demoGeneArchive, demoProtShortArchive]).dedup.length
    ∧ read_CITEseq_PBMC [demoGeneArchive, demoProtShortArchive] =
        .error .inconsistentSampleCount :=
  ⟨by decide, by decide,
    (inconsistent_count_guard _ (by decide)).1 (by decide)⟩

/-- C1: after both tables pass the checksum and field-count guards, the build
compares the two row-label sequences elementwise (`assert np.all(X_row ==
y_row)`, lines 117-118) and fails with `SampleAlignmentError` exactly when the
sequences differ; when they are elementwise equal it returns the combined
store, whose cell identities are that common sequence.  In particular two
tables whose row identities are the same set in a different order fail rather
than being zipped row-by-row. -/
theorem sample_alignment_guard (archives : List FetchedArchive)
    (hmd5 : ∀ a ∈ archives, a.plaintextMD5 = a.expectedMD5)
    (hcnt : (fieldCounts archives).dedup.length = 1) :
    (read_CITEseq_PBMC archives = .error .sampleAlignment ↔
      rowLabels (geneLines archives) ≠ rowLabels (protLines archives))
    ∧ (rowLabels (geneLines archives) = rowLabels (protLines archives) →
        ∃ out, read_CITEseq_PBMC archives = .ok out ∧
          out.cellIds = rowLabels (geneLines archives)) := by
  have hr := read_eq_postProcess archives hmd5
  have hcard : ¬ (fieldCounts archives).toFinset.card ≠ 1 := by
    rw [List.card_toFinset]; omega
  rw [hr]
  by_cases hal : rowLabels (geneLines archives) = rowLabels (protLines archives)
  · have hal2 := hal
    simp only [rowLabels] at hal2
    constructor
    · have hok : postProcess
          { n := (fieldCounts archives).toFinset,
            X := geneLines archives, y := protLines archives } ≠
          Except.error PipelineError.sampleAlignment := by
        simp only [postProcess, if_neg hcard]
        rw [if_pos hal2]
        simp
      simp [hok, hal]
    · intro _
      refine ⟨{ cellIds := rowLabels (geneLines archives),
                geneIds := humanFilterStrip
                  (((geneLines archives).transpose.headD []).drop 1),
                protIds := ((protLines archives).transpose.headD []).drop 1,
                Xvals := ((geneLines archives).transpose.drop 1).map (fun r =>
                  maskFilter ((((geneLines archives).transpose.headD []).drop 1).map
                    (fun l => hasSub humanMarker l)) (r.drop 1)),
                yvals := ((protLines archives).transpose.drop 1).map
                  (fun r => r.drop 1) }, ?_, rfl⟩
      simp only [postProcess, if_neg hcard]
      rw [if_pos hal2]
      simp [rowLabels]
  · have hal2 : ¬ ((geneLines archives).transpose.drop 1).map (fun r => r.headD []) =
        ((protLines archives).transpose.drop 1).map (fun r => r.headD []) := by
      simpa [rowLabels] using hal
    constructor
    · have herr : postProcess
          { n := (fieldCounts archives).toFinset,
            X := geneLines archives, y := protLines archives } =
          Except.error PipelineError.sampleAlignment := by
        simp only [postProcess, if_neg hcard]
        rw [if_neg hal2]
      simp [herr, hal]
    · intro h; exact absurd h hal

/-- Witness for `sample_alignment_guard`: row identities `c1, c2, c3` against
`c1, c3, c2` — the same set in a different order — fail the alignment guard. -/
theorem sample_alignment_guard_witness :
    (∀ a ∈ [demoGeneArchive, demoProtSwapArchive],
      a.plaintextMD5 = a.expectedMD5)
    ∧ (fieldCounts [demoGeneArchive, demoProtSwapArchive]).dedup.length = 1
    ∧ (read_CITEseq_PBMC [demoGeneArchive, demoProtSwapArchive] =
        .error .sampleAlignment ↔
      rowLabels (geneLines [demoGeneArchive, demoProtSwapArchive]) ≠
        rowLabels (protLines [demoGeneArchive, demoProtSwapArchive])) :=
  ⟨by decide, by decide,
    (sample_alignment_guard _ (by decide) (by decide)).1⟩

/-- C3: each downloaded archive is decrypted with the fixed password and the
checksum of the plaintext is compared with the pinned value (lines 78-80).
When every archive matches, extraction succeeds and the build continues on the
extracted state; when some archive mismatches, the build stops with
`IntegrityError` naming that file — the earlier archives are the only ones
read, and no output is ever produced from the mismatching artifact. -/
theorem md5_integrity_guard (archives : List FetchedArchive) :
    ((∀ a ∈ archives, a.plaintextMD5 = a.expectedMD5) →
      extractAll archives initState =
        .ok { n := (fieldCounts archives).toFinset,
              X := geneLines archives, y := protLines archives })
    ∧ (∀ pre a post, archives = pre ++ a :: post →
        (∀ b ∈ pre, b.plaintextMD5 = b.expectedMD5) →
        a.plaintextMD5 ≠ a.expectedMD5 →
        read_CITEseq_PBMC archives = .error (.integrityError a.name)) := by
  constructor
  · intro h
    have h1 := extractAll_ok archives h initState
    simpa [initState] using h1
  · intro pre a post hsplit hpre ha
    subst hsplit
    have h1 := extractAll_err pre a post hpre ha initState
    simp [read_CITEseq_PBMC, h1]

/-- Witness for `md5_integrity_guard`: a matching archive extracts, and a
tampered first archive aborts the whole build with its file name. -/
theorem md5_integrity_guard_witness :
    ((∀ a ∈ [demoGeneArchive], a.plaintextMD5 = a.expectedMD5)
      ∧ extractAll [demoGeneArchive] initState =
          .ok { n := (fieldCounts [demoGeneArchive]).toFinset,
                X := geneLines [demoGeneArchive], y := protLines [demoGeneArchive] })
    ∧ (demoBadMD5Archive.plaintextMD5 ≠ demoBadMD5Archive.expectedMD5
      ∧ read_CITEseq_PBMC [demoBadMD5Archive, demoProtSwapArchive] =
          .error (.integrityError demoBadMD5Archive.name)) :=
  ⟨⟨by decide, (md5_integrity_guard [demoGeneArchive]).1 (by decide)⟩,
    ⟨by decide,
      (md5_integrity_guard [demoBadMD5Archive, demoProtSwapArchive]).2
        [] demoBadMD5Archive [demoProtSwapArchive] rfl (by decide) (by decide)⟩⟩

end Sisua

namespace Sisua

/-! Length facts about the marker-removal step, needed for the species-filter
claim. -/

lemma startsWith_true_length {pat s : List Char} (h : startsWith pat s = true) :
    pat.length ≤ s.length := by
  induction pat generalizing s with
  | nil => simp
  | cons p ps ih =>
    cases s with
    | nil => simp [startsWith] at h
    | cons c cs =>
      simp only [startsWith, Bool.and_eq_true] at h
      simpa using ih h.2

lemma removeOccF_length_le (p : Char) (ps : List Char) :
    ∀ (fuel : Nat) (s : List Char), (removeOccF p ps fuel s).length ≤ s.length := by
  intro fuel
  induction fuel with
  | zero => intro s; simp [removeOccF]
  | succ f ih =>
    intro s
    cases s with
    | nil => simp [removeOccF]
    | cons c rest =>
      simp only [removeOccF]
      by_cases hs : startsWith (p :: ps) (c :: rest) = true
      · rw [if_pos hs]
        have h1 := ih (rest.drop ps.length)
        have h2 : (rest.drop ps.length).length ≤ rest.length := by
          simp [List.length_drop]
        simp only [List.length_cons]
        omega
      · rw [if_neg hs]
        simp only [List.length_cons]
        exact Nat.succ_le_succ (ih rest)

lemma hasSub_removeOccF_length (p : Char) (ps : List Char) :
    ∀ (fuel : Nat) (s : List Char), s.length ≤ fuel → hasSub (p :: ps) s = true →
      (removeOccF p ps fuel s).length + ps.length + 1 ≤ s.length := by
  intro fuel
  induction fuel with
  | zero =>
    intro s hs hsub
    have hnil : s = [] := List.length_eq_zero.mp (Nat.le_zero.mp hs)
    subst hnil
    simp [hasSub] at hsub
  | succ f ih =>
    intro s hs hsub
    cases s with
    | nil => simp [hasSub] at hsub
    | cons c rest =>
      simp only [removeOccF]
      by_cases hst : startsWith (p :: ps) (c :: rest) = true
      · rw [if_pos hst]
        have hlen : ps.length ≤ rest.length := by
          have h1 := startsWith_true_length hst
          simpa using h1
        have h1 := removeOccF_length_le p ps f (rest.drop ps.length)
        simp only [List.length_drop] at h1
        simp only [List.length_cons]
        omega
      · rw [if_neg hst]
        have hsub2 : hasSub (p :: ps) rest = true := by
          simp only [hasSub, Bool.or_eq_true] at hsub
          rcases hsub with h | h
          · exact absurd h hst
          · exact h
        have hr : rest.length ≤ f := by
          simp only [List.length_cons] at hs
          omega
        have h1 := ih rest hr hsub2
        simp only [List.length_cons]
        omega

lemma stripHuman_shorter {l : List Char} (h : hasSub humanMarker l = true) :
    (stripHuman l).length + humanMarker.length ≤ l.length := by
  have hmk : humanMarker = 'H' :: "UMAN_".toList := by decide
  have h2 : hasSub ('H' :: "UMAN_".toList) l = true := by rw [← hmk]; exact h
  have h3 := hasSub_removeOccF_length 'H' "UMAN_".toList l.length l (le_refl _) h2
  have h4 : humanMarker.length = ("UMAN_".toList).length + 1 := by decide
  simp only [stripHuman, removeOcc]
  omega

/-- C6 counterexample: the claim says the marker is stripped from every
surviving column label, so that no surviving label contains it.  The legacy
loader keeps surviving labels verbatim, marker included; and even the current
loader's `replace` can leave a marker occurrence when the removal joins two
fragments, as for `"HUMHUMAN_AN_X"`, which survives the filter and is mapped
to `"HUMAN_X"`. -/
theorem human_marker_counterexample :
    (humanFilterLegacy ["HUMAN_CD4".toList, "MOUSE_A".toList] = ["HUMAN_CD4".toList]
      ∧ hasSub humanMarker "HUMAN_CD4".toList = true)
    ∧ (humanFilterStrip ["HUMHUMAN_AN_X".toList] = ["HUMAN_X".toList]
      ∧ hasSub humanMarker "HUMAN_X".toList = true) := by decide

/-- C6 amended: in the current loader, every column whose label does not
contain `"HUMAN_"` is dropped from the primary layer (the survivor count
equals the count of marker-carrying labels), and every surviving label is the
image of a marker-carrying original under left-to-right non-overlapping
removal of `"HUMAN_"`, which makes it shorter by at least the marker length —
but removal can juxtapose fragments into a fresh marker occurrence, and the
legacy loader keeps surviving labels unchanged. -/
theorem human_filter_strip_spec (cols : List (List Char)) :
    (humanFilterStrip cols).length =
      (cols.filter (fun l => hasSub humanMarker l)).length
    ∧ ∀ l ∈ humanFilterStrip cols, ∃ orig ∈ cols,
        hasSub humanMarker orig = true ∧ l = stripHuman orig ∧
          l.length + humanMarker.length ≤ orig.length := by
  constructor
  · simp [humanFilterStrip]
  · intro l hl
    simp only [humanFilterStrip, List.mem_map] at hl
    obtain ⟨orig, horig, rfl⟩ := hl
    have hmem := List.mem_filter.mp horig
    exact ⟨orig, hmem.1, hmem.2, rfl, stripHuman_shorter hmem.2⟩

/-- Witness for `human_filter_strip_spec` at a concrete column list. -/
theorem human_filter_strip_spec_witness :
    "CD4".toList ∈ humanFilterStrip ["MOUSE_A".toList, "HUMAN_CD4".toList]
    ∧ ∃ orig ∈ ["MOUSE_A".toList, "HUMAN_CD4".toList],
        hasSub humanMarker orig = true ∧ "CD4".toList = stripHuman orig ∧
          ("CD4".toList).length + humanMarker.length ≤ orig.length :=
  ⟨by decide, (human_filter_strip_spec _).2 _ (by decide)⟩

end Sisua

namespace Sisua

/-!
Persisted-cache behaviour of the legacy loader
(`src/sisua/data/pbmc_CITEseq.py`, lines 59-147, at `override=False`): when the
persisted primary matrix is absent the dataset is rebuilt and written; then the
persisted dataset is opened and `ds.get_md5_checksum(...)` is compared with the
pinned value; on mismatch the loader closes the dataset, removes the whole
persisted directory with `shutil.rmtree`, and raises `RuntimeError` — it does
not rebuild within the same call.

The filesystem is reduced to the option of a persisted dataset; the external
`get_md5_checksum` is the `md5` field of the persisted value, and the whole
extract-download-save build (covered by the theorems above) is an opaque
`build` function whose invocations are counted.
-/

/-- A persisted dataset directory: its content and its manifest checksum as
reported by `ds.get_md5_checksum(excluded_name=['y_bin', 'y_prob'])`. -/
structure Persisted where
  content : List Char
  md5 : List Char
deriving DecidableEq, Repr

/-- The filesystem state seen by the legacy loader, plus a count of build
invocations. -/
structure CacheWorld where
  persisted : Option Persisted
  buildCount : Nat
deriving DecidableEq, Repr

/-- The legacy `read_CITEseq_PBMC` at `override=False`: build only when the
persisted primary matrix is absent, then verify the manifest checksum of the
persisted directory against the pinned value; on mismatch delete the directory
and raise. -/
def legacy_read_CITEseq_PBMC (build : Unit → Persisted) (pinnedMD5 : List Char)
    (w : CacheWorld) : CacheWorld × Except (List Char) Persisted :=
  let step : CacheWorld × Persisted :=
    match w.persisted with
    | some d => (w, d)
    | none =>
      let d := build ()
      ({ persisted := some d, buildCount := w.buildCount + 1 }, d)
  if step.2.md5 ≠ pinnedMD5 then
    ({ step.1 with persisted := none },
      .error "Invalid MD5 checksum, removed dataset".toList)
  else (step.1, .ok step.2)

/-- A persisted directory whose manifest checksum was altered. -/
def tamperedWorld : CacheWorld :=
  { persisted := some { content := "arrays".toList, md5 := "tampered".toList },
    buildCount := 0 }

/-- A build that produces a dataset carrying the pinned checksum. -/
def freshBuild : Unit → Persisted :=
  fun _ => { content := "arrays".toList, md5 := "pinned".toList }

/-- C4 counterexample: on a tampered persisted directory the legacy loader
does not rebuild — the builder is never invoked in that call — and it returns
an error instead of a rebuilt dataset, contradicting the claim that the
loader "deletes the entire persisted directory and rebuilds the dataset from
scratch via the builder". -/
theorem cache_checksum_counterexample :
    (legacy_read_CITEseq_PBMC freshBuild "pinned".toList tamperedWorld).1.buildCount = 0
    ∧ (legacy_read_CITEseq_PBMC freshBuild "pinned".toList tamperedWorld).2 =
        .error "Invalid MD5 checksum, removed dataset".toList := by decide

/-- C4 amended: when the persisted directory exists but its manifest checksum
differs from the pinned value, the loader deletes the entire persisted
directory and raises, never returning the tampered content; it does not invoke
the builder in that call — the rebuild happens on the next invocation, which
finds the directory gone and builds again. -/
theorem cache_checksum_purges (build : Unit → Persisted) (pinned : List Char)
    (w : CacheWorld) (d : Persisted)
    (hp : w.persisted = some d) (hbad : d.md5 ≠ pinned) :
    (legacy_read_CITEseq_PBMC build pinned w).1.persisted = none
    ∧ (legacy_read_CITEseq_PBMC build pinned w).1.buildCount = w.buildCount
    ∧ (legacy_read_CITEseq_PBMC build pinned w).2 =
        .error "Invalid MD5 checksum, removed dataset".toList
    ∧ (legacy_read_CITEseq_PBMC build pinned
        (legacy_read_CITEseq_PBMC build pinned w).1).1.buildCount =
        w.buildCount + 1 := by
  refine ⟨?_, ?_, ?_, ?_⟩
  · simp [legacy_read_CITEseq_PBMC, hp, hbad]
  · simp [legacy_read_CITEseq_PBMC, hp, hbad]
  · simp [legacy_read_CITEseq_PBMC, hp, hbad]
  · simp only [legacy_read_CITEseq_PBMC, hp, hbad]
    split <;> (split <;> rfl)

/-- Witness for `cache_checksum_purges` at the tampered world. -/
theorem cache_checksum_purges_witness :
    tamperedWorld.persisted =
      some { content := "arrays".toList, md5 := "tampered".toList }
    ∧ ("tampered".toList ≠ "pinned".toList)
    ∧ (legacy_read_CITEseq_PBMC freshBuild "pinned".toList tamperedWorld).1.persisted
        = none
    ∧ (legacy_read_CITEseq_PBMC freshBuild "pinned".toList
        (legacy_read_CITEseq_PBMC freshBuild "pinned".toList tamperedWorld).1).1.buildCount
        = tamperedWorld.buildCount + 1 :=
  ⟨by decide, by decide,
    (cache_checksum_purges freshBuild "pinned".toList tamperedWorld
      { content := "arrays".toList, md5 := "tampered".toList }
      (by decide) (by decide)).1,
    (cache_checksum_purges freshBuild "pinned".toList tamperedWorld
      { content := "arrays".toList, md5 := "tampered".toList }
      (by decide) (by decide)).2.2.2⟩

end Sisua

namespace Sisua

/-!
Acquisition caching of the current loader
(`src/sisua/data/data_loader/pbmc_CITEseq.py`, lines 52-72 and 129-137, at
`override=False`): when the persisted primary matrix exists the whole build is
skipped and the persisted arrays are read back; otherwise each URL is passed to
`download_file(filename=path, url=url, override=False)` and the build runs on
the downloaded files, persisting its output.

`download_file` lives in `sisua.data.utils`, which is not among the sources.
-/

/-- The filesystem and network state seen by the loader: the remote contents
by URL, the local download directory (path to bytes), the persisted arrays if
present, and a counter of network downloads. -/
structure DownloadWorld where
  remote : List (List Char × List Char)
  files : List (List Char × List Char)
  persisted : Option (List Char)
  nDownloads : Nat
deriving DecidableEq, Repr

/-- Modelled from the spec: `download_file` of `sisua.data.utils` is not among
the sources; per spec section 4.1, if the local cache path does not exist the
byte stream is downloaded from the URL into it, and if it exists it is reused
without re-downloading.  The local path of a URL is identified with the URL
itself (`os.path.basename` is injective on the loader's fixed URLs). -/
def download_file (w : DownloadWorld) (url : List Char) : DownloadWorld :=
  match w.files.lookup url with
  | some _ => w
  | none =>
    { w with files := (url, (w.remote.lookup url).getD []) :: w.files,
             nDownloads := w.nDownloads + 1 }

/-- The caching shell of the current `read_CITEseq_PBMC`: reuse the persisted
arrays when present; otherwise download every URL (reusing already-downloaded
files), run the build on the downloaded bytes, and persist its result.  The
extract-and-align build itself is the `build` parameter; its faithful model is
`read_CITEseq_PBMC` above. -/
def read_CITEseq_PBMC_cached
    (build : List (List Char) → Except PipelineError (List Char))
    (urls : List (List Char)) (w : DownloadWorld) :
    DownloadWorld × Except PipelineError (List Char) :=
  match w.persisted with
  | some blob => (w, .ok blob)
  | none =>
    let w1 := urls.foldl download_file w
    match build (urls.map (fun u => (w1.files.lookup u).getD [])) with
    | .error e => (w1, .error e)
    | .ok blob => ({ w1 with persisted := some blob }, .ok blob)

lemma lookup_ne_none {l : List (List Char × List Char)} {k v : List Char}
    (h : (k, v) ∈ l) : l.lookup k ≠ none := by
  induction l with
  | nil => simp at h
  | cons p t ih =>
    obtain ⟨k2, v2⟩ := p
    rcases List.mem_cons.mp h with h1 | h1
    · cases h1; simp [List.lookup]
    · by_cases hk : k == k2
      · simp [List.lookup, hk]
      · simp only [List.lookup, hk]
        exact ih h1

lemma download_file_nDownloads (w : DownloadWorld) (url : List Char) :
    (download_file w url).nDownloads ≤ w.nDownloads + 1 := by
  simp only [download_file]
  cases w.files.lookup url <;> simp

lemma foldl_download_nDownloads (urls : List (List Char)) (w : DownloadWorld) :
    (urls.foldl download_file w).nDownloads ≤ w.nDownloads + urls.length := by
  induction urls generalizing w with
  | nil => simp
  | cons u us ih =>
    calc (us.foldl download_file (download_file w u)).nDownloads
        ≤ (download_file w u).nDownloads + us.length := ih _
      _ ≤ w.nDownloads + 1 + us.length := by
          have := download_file_nDownloads w u; omega
      _ = w.nDownloads + (u :: us).length := by simp; omega

/-- C5: the acquisition pipeline is idempotent.  An already-downloaded archive
is reused (`download_file` leaves the world unchanged when the path exists),
one invocation performs at most one download per URL, and once the first
invocation has persisted its arrays, a second invocation with `override`
unset performs no download at all, changes nothing, and returns the
byte-identical persisted arrays. -/
theorem acquisition_idempotent
    (build : List (List Char) → Except PipelineError (List Char))
    (urls : List (List Char)) (w0 w1 : DownloadWorld)
    (r1 : Except PipelineError (List Char)) (blob : List Char)
    (hrun : read_CITEseq_PBMC_cached build urls w0 = (w1, r1))
    (hok : r1 = .ok blob) :
    read_CITEseq_PBMC_cached build urls w1 = (w1, r1)
    ∧ (read_CITEseq_PBMC_cached build urls w1).1.nDownloads = w1.nDownloads
    ∧ w1.nDownloads ≤ w0.nDownloads + urls.length
    ∧ (∀ path bytes, (path, bytes) ∈ w0.files → download_file w0 path = w0) := by
  subst hok
  have hreuse : ∀ path bytes, (path, bytes) ∈ w0.files → download_file w0 path = w0 := by
    intro path bytes hmem
    have hlk : w0.files.lookup path ≠ none := lookup_ne_none hmem
    simp only [download_file]
    cases hcase : w0.files.lookup path with
    | some v => rfl
    | none => exact absurd hcase hlk
  have hpers : w1.persisted = some blob ∧ w1.nDownloads ≤ w0.nDownloads + urls.length := by
    cases hp : w0.persisted with
    | some b =>
      simp only [read_CITEseq_PBMC_cached, hp] at hrun
      cases hrun
      exact ⟨hp, by omega⟩
    | none =>
      simp only [read_CITEseq_PBMC_cached, hp] at hrun
      cases hb : build (urls.map (fun u =>
          ((urls.foldl download_file w0).files.lookup u).getD [])) with
      | error e =>
        rw [hb] at hrun
        have hc := congrArg Prod.snd hrun
        simp at hc
      | ok b =>
        rw [hb] at hrun
        cases hrun
        exact ⟨rfl, by simpa using foldl_download_nDownloads urls w0⟩
  refine ⟨?_, ?_, hpers.2, hreuse⟩
  · simp [read_CITEseq_PBMC_cached, hpers.1]
  · simp [read_CITEseq_PBMC_cached, hpers.1]

/-- A world with one remote archive, nothing downloaded and nothing
persisted. -/
def demoWorld0 : DownloadWorld :=
  { remote := [("https://s3/GSE100866_PBMC.rawCountData.csv.zip".toList,
      "rawbytes".toList)],
    files := [], persisted := none, nDownloads := 0 }

/-- The world after the first loader invocation on `demoWorld0`. -/
def demoWorld1 : DownloadWorld :=
  { remote := [("https://s3/GSE100866_PBMC.rawCountData.csv.zip".toList,
      "rawbytes".toList)],
    files := [("https://s3/GSE100866_PBMC.rawCountData.csv.zip".toList,
      "rawbytes".toList)],
    persisted := some "arrays".toList, nDownloads := 1 }

/-- A build that persists fixed arrays whatever the downloaded bytes. -/
def demoBuild : List (List Char) → Except PipelineError (List Char) :=
  fun _ => .ok "arrays".toList

/-- Witness for `acquisition_idempotent`: one URL, one download, and the
second invocation returns the same world and the same persisted arrays. -/
theorem acquisition_idempotent_witness :
    read_CITEseq_PBMC_cached demoBuild
        ["https://s3/GSE100866_PBMC.rawCountData.csv.zip".toList] demoWorld0 =
      (demoWorld1, .ok "arrays".toList)
    ∧ read_CITEseq_PBMC_cached demoBuild
        ["https://s3/GSE100866_PBMC.rawCountData.csv.zip".toList] demoWorld1 =
      (demoWorld1, .ok "arrays".toList)
    ∧ demoWorld1.nDownloads ≤ demoWorld0.nDownloads + 1 :=
  ⟨by decide,
    (acquisition_idempotent demoBuild _ demoWorld0 demoWorld1 _ "arrays".toList
      (by decide) rfl).1,
    by decide⟩

end Sisua

namespace Sisua

/-!
The multi-omic container's `split`.  `SingleCellOMIC` is not among the
sources; only `src/tests/test_datasets.py` (lines 61-78) exercises it.  The
container and its `split` are therefore modelled from the specification.
-/

/-- The aligned multi-omic store: the ordered cell identities and the named
layers, every layer's rows indexed by the same cell axis. -/
structure OmicStore where
  cellIds : List (List Char)
  layers : List (List Char × List (List Int))
deriving DecidableEq, Repr

/-- A linear congruential step, used as the deterministic ordering criterion
of the modelled `split`. -/
def lcg (x : Nat) : Nat := (1103515245 * x + 12345) % 2147483648

/-- The sort key of index `i` under `seed`. -/
def permKey (seed i : Nat) : Nat := lcg (seed + lcg i)

/-- The seeded deterministic permutation of `0, ..., n-1`. -/
def splitPerm (seed n : Nat) : List Nat :=
  (List.range n).mergeSort (fun i j => decide (permKey seed i ≤ permKey seed j))

/-- A view store: the rows of every layer and the cell identities selected by
an index list, no data duplication. -/
def viewStore (S : OmicStore) (idx : List Nat) : OmicStore :=
  { cellIds := idx.map (fun i => S.cellIds.getD i []),
    layers := S.layers.map (fun nmM => (nmM.1, idx.map (fun i => nmM.2.getD i []))) }

/-- Modelled from the spec: `SingleCellOMIC.split` is not among the sources;
per spec section 4.4, it partitions the sample identities into two disjoint
covering subsets by a seeded deterministic ordering criterion and a train
ratio, returning two view stores. -/
def split (S : OmicStore) (ratio : ℚ) (seed : Nat) : OmicStore × OmicStore :=
  let n := S.cellIds.length
  let perm := splitPerm seed n
  let k := (⌊ratio * n⌋).toNat
  (viewStore S (perm.take k), viewStore S (perm.drop k))

lemma map_getD_range {α : Type} (l : List α) (d : α) :
    (List.range l.length).map (fun i => l.getD i d) = l := by
  induction l with
  | nil => simp
  | cons a t ih =>
    rw [List.length_cons, List.range_succ_eq_map, List.map_cons, List.map_map]
    have h2 : ((fun i => (a :: t).getD i d) ∘ Nat.succ) = fun i => t.getD i d := by
      funext i
      simp [List.getD_cons_succ]
    rw [List.getD_cons_zero, h2, ih]

lemma splitPerm_perm (seed n : Nat) : (splitPerm seed n).Perm (List.range n) :=
  List.mergeSort_perm (List.range n) _

lemma split_ids_append (S : OmicStore) (ratio : ℚ) (seed : Nat) :
    (split S ratio seed).1.cellIds ++ (split S ratio seed).2.cellIds =
      (splitPerm seed S.cellIds.length).map (fun i => S.cellIds.getD i []) := by
  simp [split, viewStore, ← List.map_append]

lemma split_map_perm (S : OmicStore) (seed : Nat) :
    ((splitPerm seed S.cellIds.length).map
      (fun i => S.cellIds.getD i [])).Perm S.cellIds := by
  have h1 := (splitPerm_perm seed S.cellIds.length).map (fun i => S.cellIds.getD i [])
  rw [map_getD_range] at h1
  exact h1

/-- C7: (modelled from the spec) `split` partitions the store: the union of
the train and test sample-identity sets is the sample-identity set of the
store, the two sets are disjoint, and splitting any store with the same
sample-identity sequence under the same ratio and seed yields trains and tests
with identical membership — the partition is a deterministic function of the
identities, ratio and seed, not freshly randomized. -/
theorem split_partition (S : OmicStore) (ratio : ℚ) (seed : Nat)
    (hnd : S.cellIds.Nodup) :
    ((split S ratio seed).1.cellIds.toFinset ∪ (split S ratio seed).2.cellIds.toFinset
        = S.cellIds.toFinset)
    ∧ Disjoint (split S ratio seed).1.cellIds.toFinset
        (split S ratio seed).2.cellIds.toFinset
    ∧ ∀ T : OmicStore, T.cellIds = S.cellIds →
        (split T ratio seed).1.cellIds = (split S ratio seed).1.cellIds ∧
        (split T ratio seed).2.cellIds = (split S ratio seed).2.cellIds := by
  have happ := split_ids_append S ratio seed
  have hperm2 : ((split S ratio seed).1.cellIds ++
      (split S ratio seed).2.cellIds).Perm S.cellIds := by
    rw [happ]; exact split_map_perm S seed
  refine ⟨?_, ?_, ?_⟩
  · have h2 := List.toFinset_eq_of_perm _ _ hperm2
    rw [← h2, List.toFinset_append]
  · have hnd2 : ((split S ratio seed).1.cellIds ++
        (split S ratio seed).2.cellIds).Nodup := (hperm2.nodup_iff).mpr hnd
    have hdisj := (List.nodup_append.mp hnd2).2.2
    exact List.disjoint_toFinset_iff_disjoint.mpr hdisj
  · intro T hT
    constructor <;> simp [split, viewStore, hT]

/-- A three-cell store with one transcriptomic layer. -/
def demoStore : OmicStore :=
  { cellIds := ["c1".toList, "c2".toList, "c3".toList],
    layers := [("transcriptomic".toList, [[1], [2], [3]])] }

/-- Witness for `split_partition` at a concrete store. -/
theorem split_partition_witness :
    demoStore.cellIds.Nodup
    ∧ ((split demoStore (1/2) 8).1.cellIds.toFinset ∪
        (split demoStore (1/2) 8).2.cellIds.toFinset = demoStore.cellIds.toFinset) :=
  ⟨by decide, (split_partition demoStore (1/2) 8 (by decide)).1⟩

end Sisua

namespace Sisua

/-!
Corruption.  `SingleCellOMIC.corrupt` is not among the sources; only
`src/tests/test_datasets.py` (lines 80-98) exercises it.  Modelled from the
spec (section 4.4 and the design note): corruption zeroes each entry of the
selected layer independently with probability `dropout_rate`; a layer is
flattened to its entry list, a corruption outcome is a Boolean mask, and the
expected sparsity is the mask-probability-weighted average of the fraction of
zero entries over all outcomes — the "expectation over repeated trials". -/

/-- All corruption outcomes over `n` entries. -/
def allMasks : Nat → List (List Bool)
  | 0 => [[]]
  | n + 1 => (allMasks n).flatMap (fun m => [true :: m, false :: m])

/-- The probability of one outcome when each entry is dropped independently
with probability `r`. -/
def maskWeight (r : ℚ) : List Bool → ℚ
  | [] => 1
  | b :: bs => (if b then r else 1 - r) * maskWeight r bs

/-- Apply one corruption outcome: a dropped entry becomes zero. -/
def corruptWith (mask : List Bool) (xs : List ℚ) : List ℚ :=
  List.zipWith (fun b x => if b then 0 else x) mask xs

/-- The number of zero entries. -/
def zeroCount (xs : List ℚ) : Nat := xs.countP (fun x => decide (x = 0))

/-- The measured sparsity: the fraction of zero entries. -/
def sparsity (xs : List ℚ) : ℚ := (zeroCount xs : ℚ) / xs.length

/-- Modelled from the spec: the expected sparsity of a layer after
`corrupt(dropout_rate = r)` — the expectation of the fraction of zero entries
over all corruption outcomes, each weighted by its probability. -/
def expSparsity (xs : List ℚ) (r : ℚ) : ℚ :=
  ((allMasks xs.length).map
    (fun m => maskWeight r m * (zeroCount (corruptWith m xs) : ℚ))).sum / xs.length

lemma sum_flatMap_pair {α : Type} (l : List α) (f g : α → ℚ) :
    (l.flatMap (fun a => [f a, g a])).sum = (l.map (fun a => f a + g a)).sum := by
  induction l with
  | nil => simp
  | cons a t ih =>
    simp [List.flatMap_cons, List.sum_append, ih]
    ring

lemma flatMap_pair_map (L : List (List Bool)) (F : List Bool → ℚ) :
    (L.flatMap (fun m => [true :: m, false :: m])).map F =
      L.flatMap (fun m => [F (true :: m), F (false :: m)]) := by
  induction L with
  | nil => simp
  | cons m t ih => simp [List.flatMap_cons, ih]

lemma sum_map_allMasks_succ (n : Nat) (F : List Bool → ℚ) :
    ((allMasks (n + 1)).map F).sum =
      ((allMasks n).map (fun m => F (true :: m) + F (false :: m))).sum := by
  have h1 : allMasks (n + 1) = (allMasks n).flatMap (fun m => [true :: m, false :: m]) := rfl
  rw [h1, flatMap_pair_map, sum_flatMap_pair]

lemma sum_map_add {α : Type} (l : List α) (f g : α → ℚ) :
    (l.map (fun a => f a + g a)).sum = (l.map f).sum + (l.map g).sum := by
  induction l with
  | nil => simp
  | cons a t ih =>
    simp [ih]
    ring

lemma maskWeight_total (r : ℚ) : ∀ n, ((allMasks n).map (maskWeight r)).sum = 1 := by
  intro n
  induction n with
  | zero => simp [allMasks, maskWeight]
  | succ n ih =>
    rw [sum_map_allMasks_succ]
    have h2 : ((allMasks n).map
        (fun m => maskWeight r (true :: m) + maskWeight r (false :: m))) =
        (allMasks n).map (maskWeight r) := by
      apply List.map_congr_left
      intro m _
      simp [maskWeight]
      ring
    rw [h2, ih]

lemma expZero_closed (r : ℚ) : ∀ xs : List ℚ,
    ((allMasks xs.length).map
      (fun m => maskWeight r m * (zeroCount (corruptWith m xs) : ℚ))).sum =
      (xs.map (fun x => if x = 0 then (1:ℚ) else r)).sum := by
  intro xs
  induction xs with
  | nil => simp [allMasks, maskWeight, corruptWith, zeroCount]
  | cons x t ih =>
    rw [List.length_cons, sum_map_allMasks_succ]
    have hpt : ∀ m,
        maskWeight r (true :: m) * (zeroCount (corruptWith (true :: m) (x :: t)) : ℚ)
        + maskWeight r (false :: m) * (zeroCount (corruptWith (false :: m) (x :: t)) : ℚ)
        = maskWeight r m * (zeroCount (corruptWith m t) : ℚ)
          + (if x = 0 then (1:ℚ) else r) * maskWeight r m := by
      intro m
      simp only [corruptWith, List.zipWith_cons_cons, maskWeight, zeroCount,
        List.countP_cons, if_true, if_false]
      by_cases hx : x = 0
      · simp only [hx]
        simp
        ring
      · have hxd : (decide (x = 0)) = false := by simp [hx]
        simp only [hxd, hx]
        simp [hx]
        ring
    have h2 : ((allMasks t.length).map (fun m =>
        maskWeight r (true :: m) * (zeroCount (corruptWith (true :: m) (x :: t)) : ℚ)
        + maskWeight r (false :: m) * (zeroCount (corruptWith (false :: m) (x :: t)) : ℚ))).sum
        = ((allMasks t.length).map (fun m =>
            maskWeight r m * (zeroCount (corruptWith m t) : ℚ)
            + (if x = 0 then (1:ℚ) else r) * maskWeight r m)).sum := by
      apply congrArg
      exact List.map_congr_left (fun m _ => hpt m)
    rw [h2, sum_map_add, ih, List.sum_map_mul_left, maskWeight_total]
    simp [List.map_cons, List.sum_cons]
    ring

lemma sum_indicator_zero (xs : List ℚ) :
    (xs.map (fun x => if x = 0 then (1:ℚ) else 0)).sum = (zeroCount xs : ℚ) := by
  induction xs with
  | nil => simp [zeroCount]
  | cons x t ih =>
    by_cases hx : x = 0 <;>
      simp [hx, ih, zeroCount, List.countP_cons] <;> push_cast <;> ring

/-- C8: (modelled from the spec) for every store, every layer and all dropout
rates `r1 < r2` in `(0, 1]`, the expected sparsity after corruption at rate
`r1` is at most the expected sparsity at rate `r2`; the expectation at rate
`0` is the uncorrupted measured sparsity, and both corrupted expectations
strictly exceed it as soon as the layer has a non-zero entry.  Quantifying
over every layer of the list models corrupting a combined set of layers
independently at the same rate. -/
theorem corrupt_sparsity_monotone (layers : List (List ℚ)) (r1 r2 : ℚ)
    (h0 : 0 < r1) (h12 : r1 < r2) (h21 : r2 ≤ 1) :
    ∀ L ∈ layers, L ≠ [] →
      expSparsity L r1 ≤ expSparsity L r2
      ∧ expSparsity L 0 = sparsity L
      ∧ ((∃ x ∈ L, x ≠ 0) →
          sparsity L < expSparsity L r1 ∧ sparsity L < expSparsity L r2) := by
  intro L hL hne
  have hlen : (0:ℚ) < L.length := by
    have h1 : 0 < L.length := List.length_pos.mpr hne
    exact_mod_cast h1
  have hclosed : ∀ r : ℚ, expSparsity L r =
      (L.map (fun x => if x = 0 then (1:ℚ) else r)).sum / L.length := by
    intro r
    rw [expSparsity, expZero_closed]
  have hmono : ∀ s1 s2 : ℚ, s1 ≤ s2 → expSparsity L s1 ≤ expSparsity L s2 := by
    intro s1 s2 hs
    rw [hclosed, hclosed]
    refine (div_le_div_right hlen).mpr ?_
    apply List.sum_le_sum
    intro x hx
    by_cases hx0 : x = 0 <;> simp [hx0, hs]
  have hzero : expSparsity L 0 = sparsity L := by
    rw [hclosed, sum_indicator_zero, sparsity]
  have hstrict : ∀ s : ℚ, 0 < s → (∃ x ∈ L, x ≠ 0) →
      sparsity L < expSparsity L s := by
    intro s hspos hex
    obtain ⟨x0, hx0mem, hx0⟩ := hex
    rw [← hzero, hclosed, hclosed]
    refine (div_lt_div_right hlen).mpr ?_
    apply List.sum_lt_sum
    · intro x hx
      by_cases h : x = 0 <;> simp [h, le_of_lt hspos]
    · exact ⟨x0, hx0mem, by simp [hx0, hspos]⟩
  exact ⟨hmono r1 r2 (le_of_lt h12), hzero,
    fun hex => ⟨hstrict r1 h0 hex, hstrict r2 (lt_trans h0 h12) hex⟩⟩

/-- The layers of a demonstration store: a transcriptomic layer with a zero
and a non-zero entry, and a proteomic layer. -/
def demoLayers : List (List ℚ) := [[0, 2], [3]]

/-- Witness for `corrupt_sparsity_monotone` at rates one half and one on the
layer `[0, 2]`. -/
theorem corrupt_sparsity_monotone_witness :
    (0:ℚ) < 1 / 2 ∧ (1:ℚ) / 2 < 1 ∧ (1:ℚ) ≤ 1
    ∧ [(0:ℚ), 2] ∈ demoLayers ∧ ([(0:ℚ), 2] ≠ ([] : List ℚ))
    ∧ expSparsity [(0:ℚ), 2] (1 / 2) ≤ expSparsity [(0:ℚ), 2] 1 :=
  ⟨one_half_pos, one_half_lt_one, le_refl 1, by simp [demoLayers], by simp,
    (corrupt_sparsity_monotone demoLayers (1 / 2) 1 one_half_pos one_half_lt_one
      (le_refl 1) [(0:ℚ), 2] (by simp [demoLayers]) (by simp)).1⟩

end Sisua

namespace Sisua

/-!
Normalization.  `SingleCellOMIC.normalize` is not among the sources; only
`src/tests/test_datasets.py` (lines 129-156) exercises it.  Modelled from the
spec (section 4.4): with `inplace=False`, `normalize(layer, log1p, scale,
total)` returns a store in which the selected layer was rewritten by applying,
in order, total-count scaling if `total`, then the log(1+x) transform if
`log1p`, then feature-wise standardization if `scale`, while every other layer
is unchanged.  Matrix entries are real numbers. -/

/-- A store with real-valued named layers. -/
structure RealStore where
  layers : List (List Char × List (List ℝ))

/-- Total-count scaling: divide each sample row by its sum. -/
noncomputable def totalStep (M : List (List ℝ)) : List (List ℝ) :=
  M.map (fun row => row.map (fun x => x / row.sum))

/-- The log(1+x) transform, applied entrywise. -/
noncomputable def log1pStep (M : List (List ℝ)) : List (List ℝ) :=
  M.map (fun row => row.map (fun x => Real.log (1 + x)))

/-- Feature-wise standardization of one column. -/
noncomputable def standardizeCol (col : List ℝ) : List ℝ :=
  col.map (fun x => (x - col.sum / col.length) /
    Real.sqrt ((col.map (fun y => (y - col.sum / col.length) ^ 2)).sum / col.length))

/-- Feature-wise standardization: standardize every column. -/
noncomputable def scaleStep (M : List (List ℝ)) : List (List ℝ) :=
  (M.transpose.map standardizeCol).transpose

/-- Modelled from the spec: `normalize` with `inplace=False` — rewrite the
selected layer by the toggled sub-steps in order (total, then log1p, then
scale); leave every other layer untouched. -/
noncomputable def normalize (S : RealStore) (layerName : List Char)
    (log1p scale total : Bool) : RealStore :=
  { layers := S.layers.map (fun p =>
      if p.1 = layerName then
        (p.1, (if scale then scaleStep else id)
                ((if log1p then log1pStep else id)
                  ((if total then totalStep else id) p.2)))
      else p) }

/-- C9: (modelled from the spec) `normalize(L, log1p=True, scale=False,
total=False)` with `inplace=False` returns a store whose layer `L` is the
elementwise `log(1 + original)`, while every other layer is numerically
unchanged. -/
theorem normalize_log1p_only (S : RealStore) (nm : List Char) :
    ∀ nm2 M, (nm2, M) ∈ S.layers →
      (nm2 = nm →
        (nm2, M.map (fun row => row.map (fun x => Real.log (1 + x)))) ∈
          (normalize S nm true false false).layers)
      ∧ (nm2 ≠ nm → (nm2, M) ∈ (normalize S nm true false false).layers) := by
  intro nm2 M hmem
  constructor
  · intro heq
    subst heq
    have h1 := List.mem_map_of_mem (fun p : List Char × List (List ℝ) =>
      if p.1 = nm2 then
        (p.1, (if false then scaleStep else id)
                ((if true then log1pStep else id)
                  ((if false then totalStep else id) p.2)))
      else p) hmem
    simpa [normalize, log1pStep] using h1
  · intro hne
    have h1 := List.mem_map_of_mem (fun p : List Char × List (List ℝ) =>
      if p.1 = nm then
        (p.1, (if false then scaleStep else id)
                ((if true then log1pStep else id)
                  ((if false then totalStep else id) p.2)))
      else p) hmem
    simpa [normalize, hne] using h1

/-- A demonstration real-valued store with two layers. -/
noncomputable def demoRealStore : RealStore :=
  { layers := [("transcriptomic".toList, [[2]]), ("proteomic".toList, [[3]])] }

/-- Witness for `normalize_log1p_only`: the transcriptomic layer of the
returned store is the entrywise `log(1 + x)` image, and the proteomic layer is
untouched. -/
theorem normalize_log1p_only_witness :
    (("transcriptomic".toList, [[(2:ℝ)]]) ∈ demoRealStore.layers)
    ∧ (("transcriptomic".toList, [[Real.log (1 + 2)]]) ∈
        (normalize demoRealStore "transcriptomic".toList true false false).layers)
    ∧ (("proteomic".toList, [[(3:ℝ)]]) ∈
        (normalize demoRealStore "transcriptomic".toList true false false).layers) :=
  ⟨by simp [demoRealStore],
    by
      have h1 := (normalize_log1p_only demoRealStore "transcriptomic".toList
        "transcriptomic".toList [[(2:ℝ)]] (by simp [demoRealStore])).1 rfl
      simpa using h1,
    (normalize_log1p_only demoRealStore "transcriptomic".toList
      "proteomic".toList [[(3:ℝ)]] (by simp [demoRealStore])).2 (by decide)⟩

end Sisua

namespace Sisua

/-!
Embedding of `get_latent` from `src/sisua/models/latents.py` (lines 51-64):
the registry of latent-distribution classes and the string-dispatched
accessor. -/

/-- The four latent-distribution classes defined in the module. -/
inductive LatentClass where
  | NormalLatent
  | NormalDiagLatent
  | MixedNormalLatent
  | DirichletLatent
deriving DecidableEq, Repr

/-- The `_latent_map` dictionary. -/
def latent_map : List (List Char × LatentClass) :=
  [("normal".toList, .NormalLatent),
   ("diag".toList, .NormalDiagLatent),
   ("mixed".toList, .MixedNormalLatent),
   ("diri".toList, .DirichletLatent)]

/-- The error text of the `ValueError` (keys joined, then the given name). -/
def latentErrMsg (n : List Char) : List Char :=
  "Only support following latent: normal, diag, mixed, diri; but given: ".toList ++ n

/-- `get_latent`: lowercase the name, look it up in the registry, raise
`ValueError` when absent. -/
def get_latent (name : List Char) : Except (List Char) LatentClass :=
  let n := pyLower name
  match latent_map.lookup n with
  | some c => .ok c
  | none => .error (latentErrMsg n)

/-- C10: `get_latent` lowercases its argument and succeeds exactly when the
lowercased name is one of `normal`, `diag`, `mixed`, `diri`; any other name
raises `ValueError`.  A successful lookup returns the class registered for
the lowercased name. -/
theorem get_latent_ok_iff (name : List Char) :
    ((∃ c, get_latent name = .ok c) ↔
      pyLower name ∈ ["normal".toList, "diag".toList, "mixed".toList, "diri".toList])
    ∧ (pyLower name ∉ ["normal".toList, "diag".toList, "mixed".toList, "diri".toList] →
        get_latent name = .error (latentErrMsg (pyLower name)))
    ∧ (∀ c, get_latent name = .ok c → (pyLower name, c) ∈ latent_map) := by
  by_cases h1 : pyLower name = "normal".toList
  · refine ⟨?_, ?_, ?_⟩ <;> simp [get_latent, latent_map, List.lookup, h1]
  · by_cases h2 : pyLower name = "diag".toList
    · refine ⟨?_, ?_, ?_⟩ <;> simp [get_latent, latent_map, List.lookup, h1, h2]
    · by_cases h3 : pyLower name = "mixed".toList
      · refine ⟨?_, ?_, ?_⟩ <;> simp [get_latent, latent_map, List.lookup, h1, h2, h3]
      · by_cases h4 : pyLower name = "diri".toList
        · refine ⟨?_, ?_, ?_⟩ <;>
            simp [get_latent, latent_map, List.lookup, h1, h2, h3, h4]
        · have h5 : ¬ pyLower name = ['n', 'o', 'r', 'm', 'a', 'l'] := h1
          have h6 : ¬ pyLower name = ['d', 'i', 'a', 'g'] := h2
          have h7 : ¬ pyLower name = ['m', 'i', 'x', 'e', 'd'] := h3
          have h8 : ¬ pyLower name = ['d', 'i', 'r', 'i'] := h4
          have b1 : (pyLower name == ['n', 'o', 'r', 'm', 'a', 'l']) = false :=
            beq_eq_false_iff_ne.mpr h5
          have b2 : (pyLower name == ['d', 'i', 'a', 'g']) = false :=
            beq_eq_false_iff_ne.mpr h6
          have b3 : (pyLower name == ['m', 'i', 'x', 'e', 'd']) = false :=
            beq_eq_false_iff_ne.mpr h7
          have b4 : (pyLower name == ['d', 'i', 'r', 'i']) = false :=
            beq_eq_false_iff_ne.mpr h8
          refine ⟨?_, ?_, ?_⟩ <;>
            simp [get_latent, latent_map, List.lookup, latentErrMsg,
              b1, b2, b3, b4, h5, h6, h7, h8]

end Sisua

namespace Sisua

/-- Witness for `get_latent_ok_iff`: an unknown name raises with the module's
message, and an upper-case spelling of a known name succeeds thanks to the
lowercasing. -/
theorem get_latent_ok_iff_witness :
    (pyLower "bogus".toList ∉
      ["normal".toList, "diag".toList, "mixed".toList, "diri".toList])
    ∧ get_latent "bogus".toList = .error (latentErrMsg (pyLower "bogus".toList))
    ∧ (∃ c, get_latent "NORMAL".toList = .ok c) :=
  ⟨by decide,
    (get_latent_ok_iff "bogus".toList).2.1 (by decide),
    (get_latent_ok_iff "NORMAL".toList).1.mpr (by decide)⟩

end Sisua
